import Mathlib

/-!
Shallow embedding of `fraction.hpp` (namespace `mth`, class template
`fraction<INT, error_exp>` instantiated at the defaults `INT = std::int64_t`,
`error_exp = -6`), together with proofs about its canonicalization rule,
arithmetic, ordering, modulo, exponentiation guards, root factoring and the
two double-to-fraction approximators.

Modelling conventions:
* `INT` is modelled as the unbounded `Int`; the source documents integer
  overflow as an unguarded limitation and the properties below concern
  non-overflowing values.
* `double` values are modelled as exact rationals `ℚ`: `to_double()` becomes
  the exact value `numerator / denominator` (`Rat.divInt`), floating-point
  rounding is idealized away, and the compile-time tolerance
  `error = pow10(-6)` becomes the exact `1 / 1000000`.
* the private write-only fields `initial_num` / `initial_den` of the C++
  class are never read by any member or friend and are omitted; `operator==`
  compares only the canonical `numerator` / `denominator` pair.
* calls that raise a `double` to a real power and re-approximate the result
  (`std::pow`, `std::sqrt` composed with the Stern-Brocot approximator) are
  abstracted by an explicit oracle argument, universally quantified in the
  theorems that mention them.
* the unbounded `for(;;)` loop of the Stern-Brocot mediant search gets an
  explicit fuel argument, `none` standing for running out of fuel; the
  downward `for(; factor != 0; --factor)` loop of `simplify_root` recurses
  structurally on `factor` itself.
-/

namespace mth

/-- The fraction value: the canonical numerator / denominator pair stored by
`mth::fraction` (the informational `initial_num` / `initial_den` fields are
write-only in the source and omitted). -/
structure fraction where
  numerator : Int
  denominator : Int
deriving DecidableEq

/-- `(INT)std::copysign(g, d)` for a non-negative integer `g`: `g` carrying
the sign of `d` (with `d = 0` mapping to `+0.0`, hence `+g`). -/
def copysign (g d : Int) : Int := if d < 0 then -g else g

/-- `fraction::set(num, den)`: `gcd = std::gcd(num, den)`,
`numerator = num / (INT)std::copysign(gcd, den)`,
`denominator = std::labs(den) / gcd`.  C++ integer division truncates toward
zero, hence `Int.tdiv`. -/
def fraction.set (num den : Int) : fraction :=
  let g : Int := Int.gcd num den
  ⟨num.tdiv (copysign g den), ((den.natAbs : Int)).tdiv g⟩

/-- The constant `fraction::f_0 { 0, 1 }`. -/
def f_0 : fraction := fraction.set 0 1

/-- The constant `fraction::f_1 { 1, 1 }`. -/
def f_1 : fraction := fraction.set 1 1

/-- The constant `fraction::f_inf { 1, 0 }`. -/
def f_inf : fraction := fraction.set 1 0

/-- The single-integer constructor `fraction(const INT num)`: `set(num, 1)`. -/
def fraction.ofInt (n : Int) : fraction := fraction.set n 1

/-- `fraction::to_double()` under the exact-real idealization of `double`:
the exact rational value `numerator / denominator`. -/
def fraction.toRat (a : fraction) : ℚ := Rat.divInt a.numerator a.denominator

/-- `fraction::inv()`: `{ denominator, numerator }` (constructs through
`set`). -/
def fraction.inv (a : fraction) : fraction := fraction.set a.denominator a.numerator

/-- `mediant(f1, f2)`: `fraction{ f1.num() + f2.num(), f1.den() + f2.den() }`. -/
def mediant (f1 f2 : fraction) : fraction :=
  fraction.set (f1.numerator + f2.numerator) (f1.denominator + f2.denominator)

/-- `operator+(const fraction&)`: constructs
`{ numerator*rhs.den() + denominator*rhs.num(), denominator*rhs.den() }`. -/
def fraction.add (a b : fraction) : fraction :=
  fraction.set (a.numerator * b.denominator + a.denominator * b.numerator)
    (a.denominator * b.denominator)

/-- `operator+(const INT&)`: constructs
`{ numerator + denominator*rhs, denominator }`. -/
def fraction.addInt (a : fraction) (rhs : Int) : fraction :=
  fraction.set (a.numerator + a.denominator * rhs) a.denominator

/-- Unary `operator-()`: constructs `{ -numerator, denominator }`. -/
def fraction.neg (a : fraction) : fraction :=
  fraction.set (-a.numerator) a.denominator

/-- `operator-(const fraction&)`: `*this + (-rhs)`. -/
def fraction.sub (a b : fraction) : fraction := a.add b.neg

/-- `operator*(const fraction&)`: constructs
`{ numerator*rhs.num(), denominator*rhs.den() }`. -/
def fraction.mul (a b : fraction) : fraction :=
  fraction.set (a.numerator * b.numerator) (a.denominator * b.denominator)

/-- `operator*(const INT&)`: constructs `{ numerator*rhs, denominator }`
(also reached by the friend `operator*(INT, fraction)`). -/
def fraction.mulInt (a : fraction) (rhs : Int) : fraction :=
  fraction.set (a.numerator * rhs) a.denominator

/-- `operator/(const fraction&)`: constructs
`{ numerator*rhs.den(), denominator*rhs.num() }`. -/
def fraction.div (a b : fraction) : fraction :=
  fraction.set (a.numerator * b.denominator) (a.denominator * b.numerator)

/-- `(INT)std::trunc(a.to_double())` under the exact-real idealization:
truncation toward zero of `numerator / denominator`, i.e. `Int.tdiv`
(the operand always has a positive denominator where this is used). -/
def truncInt (a : fraction) : Int := a.numerator.tdiv a.denominator

/-- `operator%(const fraction&)`: the sentinel `f_inf` when the divisor's
numerator or denominator, or the value's own denominator, is zero; otherwise
`*this - (INT)std::trunc((*this / rhs).to_double()) * rhs`. -/
def fraction.mod (a b : fraction) : fraction :=
  if b.numerator = 0 ∨ b.denominator = 0 ∨ a.denominator = 0 then f_inf
  else a.sub (b.mulInt (truncInt (a.div b)))

/-- The integer three-way comparison `<=>` as an `Ordering`. -/
def icmp (x y : Int) : Ordering :=
  if x < y then Ordering.lt else if x = y then Ordering.eq else Ordering.gt

/-- `operator<=>(const fraction&)`:
`(numerator * rhs.den()) <=> (rhs.num() * denominator)`. -/
def fraction.cmp (a b : fraction) : Ordering :=
  icmp (a.numerator * b.denominator) (b.numerator * a.denominator)

/-- `fraction::pow(double exp)`: the guarded operand itself when
`(exp < 0 && numerator == 0) || (exp >= 0 && denominator == 0)`; otherwise
`std::pow(to_double(), exp)` re-approximated through the Stern-Brocot
approximator, abstracted here as the oracle `powApprox` (real exponentiation
of doubles is not representable exactly). -/
def fraction.pow (powApprox : fraction → ℚ → fraction) (a : fraction) (e : ℚ) : fraction :=
  if (e < 0 ∧ a.numerator = 0) ∨ (0 ≤ e ∧ a.denominator = 0) then a
  else powApprox a e

/-- `fraction::pow_c(double exp)`: the pair `(f_inf, f_0)` under the same
guard as `pow`; otherwise the complex power in floating point with real and
imaginary parts approximated separately, abstracted as the oracle
`powApproxC`. -/
def fraction.pow_c (powApproxC : fraction → ℚ → fraction × fraction) (a : fraction)
    (e : ℚ) : fraction × fraction :=
  if (e < 0 ∧ a.numerator = 0) ∨ (0 ≤ e ∧ a.denominator = 0) then (f_inf, f_0)
  else powApproxC a e

/-- `operator+(const double&)`: `denominator == 0 ? *this :
fraction{ to_double() + rhs }`; the double-to-fraction constructor
(Stern-Brocot approximation) is abstracted as the oracle `approx`. -/
def fraction.addD (approx : ℚ → fraction) (a : fraction) (x : ℚ) : fraction :=
  if a.denominator = 0 then a else approx (a.toRat + x)

/-- `operator-(const double&)`: `*this + (-rhs)`. -/
def fraction.subD (approx : ℚ → fraction) (a : fraction) (x : ℚ) : fraction :=
  a.addD approx (-x)

/-- `operator*(const double&)`: `denominator == 0 ? *this :
fraction{ to_double() * rhs }`. -/
def fraction.mulD (approx : ℚ → fraction) (a : fraction) (x : ℚ) : fraction :=
  if a.denominator = 0 then a else approx (a.toRat * x)

/-- `operator/(const double&)`: `denominator == 0 ? *this :
fraction{ to_double() / rhs }`. -/
def fraction.divD (approx : ℚ → fraction) (a : fraction) (x : ℚ) : fraction :=
  if a.denominator = 0 then a else approx (a.toRat / x)

/-- Truncation toward zero of a rational, used to idealize `std::trunc` and
`std::fmod` on doubles. -/
def truncQ (q : ℚ) : Int := if q < 0 then Int.ceil q else Int.floor q

/-- `std::fmod(a, b)` under the exact-real idealization:
`a - trunc(a/b) * b`. -/
def fmodQ (a b : ℚ) : ℚ := a - (truncQ (a / b)) * b

/-- `operator%(const double&)`: `denominator == 0 ? *this :
fraction{ std::fmod(to_double(), rhs) }`. -/
def fraction.modD (approx : ℚ → fraction) (a : fraction) (x : ℚ) : fraction :=
  if a.denominator = 0 then a else approx (fmodQ a.toRat x)

/-- The tolerance `fraction::error = pow10(error_exp)` at the default
`error_exp = -6`, idealized as the exact `1 / 1000000`. -/
def error : ℚ := Rat.divInt 1 1000000

/-- The `for(;;)` loop of `to_fraction_using_stern_brocot_with_mediants`,
with explicit fuel: compute `med = mediant(low, high)`; if
`med.to_double() - from > error` recurse with `high = med`; else if
`med.to_double() - from < -error` recurse with `low = med`; else stop and
return `med`. -/
def sbLoop (x tol : ℚ) : Nat → fraction → fraction → Option fraction
  | 0, _, _ => none
  | fuel+1, low, high =>
    let med := mediant low high
    if med.toRat - x > tol then sbLoop x tol fuel low med
    else if med.toRat - x < -tol then sbLoop x tol fuel med high
    else some med

/-- `to_fraction_using_stern_brocot_with_mediants(from)`: run the mediant
search from `low = fraction{(INT)std::floor(from)}` and
`high = fraction{(INT)std::ceil(from)}`. -/
def to_fraction_using_stern_brocot_with_mediants (fuel : Nat) (x : ℚ) : Option fraction :=
  sbLoop x error fuel (fraction.ofInt (Int.floor x)) (fraction.ofInt (Int.ceil x))

/-- `to_fraction(const std::span<INT>&)`: `std::accumulate` from
`std::next(from.rbegin())` to `from.rend()` - i.e. over the elements in
reverse order with the span's final element skipped - starting from `f_0`,
with step `(a.num() == 0) ? fraction{b} : a.inv() + b`. -/
def to_fraction (from_ : List Int) : fraction :=
  (from_.reverse.drop 1).foldl
    (fun a b => if a.numerator = 0 then fraction.ofInt b else (a.inv).addInt b) f_0

/-- The continued-fraction evaluation as the specification's words describe
it (for comparison with `to_fraction`): the accumulator starts as the
sequence's last coefficient taken as an integer-valued fraction, and each
earlier coefficient `c` replaces the accumulator `a` by `invert(a) + c`,
except that a zero accumulator is replaced by `c` directly. -/
def to_fraction_claimed (from_ : List Int) : fraction :=
  match from_.reverse with
  | [] => f_0
  | a :: rest =>
      rest.foldl
        (fun acc c => if acc.numerator = 0 then fraction.ofInt c else (acc.inv).addInt c)
        (fraction.ofInt a)

/-- `std::floor(std::pow(v, 1.0/root))` for a non-negative integer `v` under
the exact-real idealization: the greatest `k` with `k ^ root ≤ v`. -/
def floorRoot (n r : Nat) : Nat := Nat.findGreatest (fun k => k ^ r ≤ n) n

/-- The `for(; factor != 0; --factor)` loop of `fraction::simplify_root`,
recursing on `factor`: assign `remain = fraction{i, (INT)std::pow(factor,
root)}` and break when `remain.denominator == 1`; `(0, remain)` models
falling out of the loop with `factor == 0`. -/
def srLoop (i : Int) (r : Nat) (remain : fraction) : Nat → Int × fraction
  | 0 => (0, remain)
  | f+1 =>
    let remain' := fraction.set i (((f+1 : Nat) : Int) ^ r)
    if remain'.denominator = 1 then (((f+1 : Nat) : Int), remain')
    else srLoop i r remain' f

/-- `fraction::simplify_root(i, root)`: start `remain = fraction{i}` and
`factor = (INT)std::floor(std::pow(std::labs(i), 1.0/root))`, run the
downward search, and force `factor` to 1 (`++factor`) when the loop ended
with `factor == 0`. -/
def simplify_root (i : Int) (r : Nat) : Int × fraction :=
  let p := srLoop i r (fraction.ofInt i) (floorRoot i.natAbs r)
  (if p.1 = 0 then p.1 + 1 else p.1, p.2)

/-- `fraction::simplify_rt(rt)`: apply `simplify_root` to numerator and
denominator; if either factor exceeds 1 return
`(fraction{np_factor, dp_factor}, np_remain / dp_remain)`, else
`(f_1, *this)`. -/
def fraction.simplify_rt (a : fraction) (r : Nat) : fraction × fraction :=
  let np := simplify_root a.numerator r
  let dp := simplify_root a.denominator r
  if 1 < np.1 ∨ 1 < dp.1 then (fraction.set np.1 dp.1, (np.2).div dp.2)
  else (f_1, a)


-- ------------------------------------------------------------------
-- Helper lemmas about `fraction.set`
-- ------------------------------------------------------------------

lemma tdiv_natCast (a b : Nat) : (a : Int).tdiv (b : Int) = ((a / b : Nat) : Int) := rfl

lemma natAbs_tdiv_natCast (n : Int) (g : Nat) :
    (n.tdiv (g : Int)).natAbs = n.natAbs / g := by
  rw [Int.natAbs_tdiv, Int.natAbs_ofNat]
  rfl

lemma set_den_pos (n d : Int) (hd : d ≠ 0) : 0 < (fraction.set n d).denominator := by
  have hg : 0 < Int.gcd n d := Int.gcd_pos_iff.mpr (Or.inr hd)
  have hdvd : Int.gcd n d ∣ d.natAbs := Nat.gcd_dvd_right _ _
  have hdpos : 0 < d.natAbs := Int.natAbs_pos.mpr hd
  have : (fraction.set n d).denominator = ((d.natAbs / Int.gcd n d : Nat) : Int) := by
    simp only [fraction.set, tdiv_natCast]
  rw [this]
  exact_mod_cast Nat.div_pos (Nat.le_of_dvd hdpos hdvd) hg

lemma set_gcd_one (n d : Int) (hd : d ≠ 0) :
    Int.gcd (fraction.set n d).numerator (fraction.set n d).denominator = 1 := by
  have hg : 0 < Int.gcd n d := Int.gcd_pos_iff.mpr (Or.inr hd)
  have hnum : ((fraction.set n d).numerator).natAbs = n.natAbs / Int.gcd n d := by
    simp only [fraction.set, copysign]
    split
    · rw [Int.tdiv_neg, Int.natAbs_neg, natAbs_tdiv_natCast]
    · rw [natAbs_tdiv_natCast]
  have hden : ((fraction.set n d).denominator).natAbs = d.natAbs / Int.gcd n d := by
    simp only [fraction.set, tdiv_natCast, Int.natAbs_ofNat]
  show Nat.gcd _ _ = 1
  rw [hnum, hden]
  exact Nat.coprime_div_gcd_div_gcd hg

lemma set_cross (n d : Int) :
    (fraction.set n d).numerator * d = n * (fraction.set n d).denominator := by
  rcases Nat.eq_zero_or_pos (Int.gcd n d) with hg | hg
  · obtain ⟨hn0, hd0⟩ := Int.gcd_eq_zero_iff.mp hg
    subst hn0; subst hd0
    simp [fraction.set]
  · have hgz : ((Int.gcd n d : Nat) : Int) ≠ 0 := by exact_mod_cast hg.ne'
    obtain ⟨a, ha⟩ : ((Int.gcd n d : Nat) : Int) ∣ n := Int.gcd_dvd_left
    obtain ⟨b, hb⟩ : ((Int.gcd n d : Nat) : Int) ∣ d := Int.gcd_dvd_right
    have hnum0 : n.tdiv ((Int.gcd n d : Nat) : Int) = a :=
      Int.tdiv_eq_of_eq_mul_left hgz (by linear_combination ha)
    have key : a * d = n * b := by linear_combination a * hb - b * ha
    by_cases hdneg : d < 0
    · have habs : ((d.natAbs : Nat) : Int) = -d := Int.ofNat_natAbs_of_nonpos hdneg.le
      have hnum : (fraction.set n d).numerator = -a := by
        show n.tdiv (copysign ((Int.gcd n d : Nat) : Int) d) = -a
        rw [copysign, if_pos hdneg, Int.tdiv_neg, hnum0]
      have hden : (fraction.set n d).denominator = -b := by
        show ((d.natAbs : Nat) : Int).tdiv ((Int.gcd n d : Nat) : Int) = -b
        rw [habs]
        exact Int.tdiv_eq_of_eq_mul_left hgz (by linear_combination -hb)
      rw [hnum, hden]
      linear_combination -key
    · have habs : ((d.natAbs : Nat) : Int) = d := Int.natAbs_of_nonneg (not_lt.mp hdneg)
      have hnum : (fraction.set n d).numerator = a := by
        show n.tdiv (copysign ((Int.gcd n d : Nat) : Int) d) = a
        rw [copysign, if_neg hdneg, hnum0]
      have hden : (fraction.set n d).denominator = b := by
        show ((d.natAbs : Nat) : Int).tdiv ((Int.gcd n d : Nat) : Int) = b
        rw [habs]
        exact Int.tdiv_eq_of_eq_mul_left hgz (by linear_combination hb)
      rw [hnum, hden]
      exact key

lemma toRat_set (n d : Int) (hd : d ≠ 0) :
    (fraction.set n d).toRat = (n : ℚ) / (d : ℚ) := by
  have hden : (0 : ℚ) < ((fraction.set n d).denominator : ℚ) := by
    exact_mod_cast set_den_pos n d hd
  have hdq : ((d : Int) : ℚ) ≠ 0 := by exact_mod_cast hd
  rw [fraction.toRat, Rat.divInt_eq_div, div_eq_div_iff hden.ne' hdq]
  exact_mod_cast set_cross n d

-- ------------------------------------------------------------------
-- Claim theorems C1 and C2
-- ------------------------------------------------------------------

/-- C1: for integers `n`, `d` with `d ≠ 0`, `fraction(n, d)` constructed
through `set` has a positive denominator, coprime numerator and denominator,
and represents exactly the value `n / d` (so the sign lives in the
numerator); canonicalization identifies `(2, 4)` and `(-1, -2)` with `(1, 2)`
and `(1, -2)` with `(-1, 2)`; and the operations, all of which construct through
`set`, produce values in the same canonical form whenever the constructed
denominator is nonzero. -/
theorem C1_canonical_form :
    (∀ n d : Int, d ≠ 0 →
      0 < (fraction.set n d).denominator ∧
      Int.gcd (fraction.set n d).numerator (fraction.set n d).denominator = 1 ∧
      (fraction.set n d).toRat = (n : ℚ) / (d : ℚ)) ∧
    fraction.set 2 4 = fraction.set 1 2 ∧
    fraction.set (-1) (-2) = fraction.set 1 2 ∧
    fraction.set 1 (-2) = fraction.set (-1) 2 ∧
    (∀ a b : fraction, a.denominator ≠ 0 → b.denominator ≠ 0 →
      0 < (a.add b).denominator ∧
      Int.gcd (a.add b).numerator (a.add b).denominator = 1) ∧
    (∀ a b : fraction, a.denominator ≠ 0 → b.denominator ≠ 0 →
      0 < (a.mul b).denominator ∧
      Int.gcd (a.mul b).numerator (a.mul b).denominator = 1) ∧
    (∀ a b : fraction, a.denominator ≠ 0 → b.numerator ≠ 0 →
      0 < (a.div b).denominator ∧
      Int.gcd (a.div b).numerator (a.div b).denominator = 1) ∧
    (∀ a : fraction, a.numerator ≠ 0 →
      0 < a.inv.denominator ∧ Int.gcd a.inv.numerator a.inv.denominator = 1) := by
  refine ⟨fun n d hd => ⟨set_den_pos n d hd, set_gcd_one n d hd, toRat_set n d hd⟩,
    by decide, by decide, by decide, ?_, ?_, ?_, ?_⟩
  · intro a b ha hb
    have h : a.denominator * b.denominator ≠ 0 := mul_ne_zero ha hb
    exact ⟨set_den_pos _ _ h, set_gcd_one _ _ h⟩
  · intro a b ha hb
    have h : a.denominator * b.denominator ≠ 0 := mul_ne_zero ha hb
    exact ⟨set_den_pos _ _ h, set_gcd_one _ _ h⟩
  · intro a b ha hb
    have h : a.denominator * b.numerator ≠ 0 := mul_ne_zero ha hb
    exact ⟨set_den_pos _ _ h, set_gcd_one _ _ h⟩
  · intro a ha
    exact ⟨set_den_pos _ _ ha, set_gcd_one _ _ ha⟩

/-- Witness for C1 at concrete inputs: `fraction(3, -6)` is canonical with
value `-1/2`, and `1/2 + 1/3` is canonical. -/
theorem C1_canonical_form_witness :
    (0 < (fraction.set 3 (-6)).denominator ∧
      Int.gcd (fraction.set 3 (-6)).numerator (fraction.set 3 (-6)).denominator = 1 ∧
      (fraction.set 3 (-6)).toRat = (3 : ℚ) / ((-6 : Int) : ℚ)) ∧
    (0 < ((fraction.set 1 2).add (fraction.set 1 3)).denominator ∧
      Int.gcd ((fraction.set 1 2).add (fraction.set 1 3)).numerator
        ((fraction.set 1 2).add (fraction.set 1 3)).denominator = 1) :=
  ⟨C1_canonical_form.1 3 (-6) (by decide),
   C1_canonical_form.2.2.2.2.1 (fraction.set 1 2) (fraction.set 1 3)
     (by decide) (by decide)⟩

/-- C2: `operator+` on two fractions constructs the canonicalization of
`a*d + b*c` over `b*d`, and `1/4 + 1/2 = 3/4`. -/
theorem C2_addition :
    (∀ a b : fraction, a.add b =
      fraction.set (a.numerator * b.denominator + a.denominator * b.numerator)
        (a.denominator * b.denominator)) ∧
    (fraction.set 1 4).add (fraction.set 1 2) = fraction.set 3 4 := by
  exact ⟨fun a b => rfl, by decide⟩

-- ------------------------------------------------------------------
-- Helper lemmas for ordering and reciprocals
-- ------------------------------------------------------------------

lemma icmp_lt_iff (x y : Int) : icmp x y = Ordering.lt ↔ x < y := by
  unfold icmp
  split_ifs <;> simp <;> omega

lemma icmp_eq_iff (x y : Int) : icmp x y = Ordering.eq ↔ x = y := by
  unfold icmp
  split_ifs <;> simp <;> omega

lemma icmp_gt_iff (x y : Int) : icmp x y = Ordering.gt ↔ y < x := by
  unfold icmp
  split_ifs <;> simp <;> omega

lemma toRat_lt_iff (a b : fraction) (ha : 0 < a.denominator) (hb : 0 < b.denominator) :
    a.toRat < b.toRat ↔ a.numerator * b.denominator < b.numerator * a.denominator := by
  have haq : (0 : ℚ) < (a.denominator : ℚ) := by exact_mod_cast ha
  have hbq : (0 : ℚ) < (b.denominator : ℚ) := by exact_mod_cast hb
  rw [fraction.toRat, fraction.toRat, Rat.divInt_eq_div, Rat.divInt_eq_div,
    div_lt_div_iff₀ haq hbq]
  exact_mod_cast Iff.rfl

lemma toRat_eq_iff (a b : fraction) (ha : 0 < a.denominator) (hb : 0 < b.denominator) :
    a.toRat = b.toRat ↔ a.numerator * b.denominator = b.numerator * a.denominator := by
  have haq : ((a.denominator : Int) : ℚ) ≠ 0 := by exact_mod_cast ha.ne'
  have hbq : ((b.denominator : Int) : ℚ) ≠ 0 := by exact_mod_cast hb.ne'
  rw [fraction.toRat, fraction.toRat, Rat.divInt_eq_div, Rat.divInt_eq_div,
    div_eq_div_iff haq hbq]
  exact_mod_cast Iff.rfl

lemma canonical_inj (a b : fraction) (ha : 0 < a.denominator)
    (hga : Int.gcd a.numerator a.denominator = 1) (hb : 0 < b.denominator)
    (hgb : Int.gcd b.numerator b.denominator = 1)
    (h : a.numerator * b.denominator = b.numerator * a.denominator) : a = b := by
  have hca : IsCoprime a.numerator a.denominator := Int.isCoprime_iff_gcd_eq_one.mpr hga
  have hcb : IsCoprime b.numerator b.denominator := Int.isCoprime_iff_gcd_eq_one.mpr hgb
  have h1 : a.denominator ∣ b.denominator := by
    have hdvd : a.denominator ∣ a.numerator * b.denominator := h ▸ dvd_mul_left _ _
    exact (hca.symm).dvd_of_dvd_mul_left hdvd
  have h2 : b.denominator ∣ a.denominator := by
    have hdvd : b.denominator ∣ b.numerator * a.denominator := h ▸ dvd_mul_left _ _
    exact (hcb.symm).dvd_of_dvd_mul_left hdvd
  have hden : a.denominator = b.denominator := Int.dvd_antisymm ha.le hb.le h1 h2
  have hnum : a.numerator = b.numerator := by
    have := h
    rw [hden] at this
    exact mul_right_cancel₀ hb.ne' this
  cases a; cases b
  simp_all

lemma set_coprime (p q : Int) (h : Int.gcd p q = 1) :
    fraction.set p q = ⟨if q < 0 then -p else p, (q.natAbs : Int)⟩ := by
  by_cases hq : q < 0
  · simp [fraction.set, copysign, h, hq, Int.tdiv_neg]
  · simp [fraction.set, copysign, h, hq]

-- ------------------------------------------------------------------
-- Claim theorems C5, C6, C7, C9, C10
-- ------------------------------------------------------------------

/-- C5: the three-way comparison is the integer comparison of the
cross-products `a.num * b.den` and `b.num * a.den`; equality of fractions is
field equality of the pairs; on positive denominators the comparison agrees
exactly with the order of the represented rational values, and on canonical
(reduced, positive-denominator) fractions field equality coincides with
equality of values. -/
theorem C5_comparison :
    (∀ a b : fraction,
      a.cmp b = icmp (a.numerator * b.denominator) (b.numerator * a.denominator)) ∧
    (∀ a b : fraction,
      a = b ↔ a.numerator = b.numerator ∧ a.denominator = b.denominator) ∧
    (∀ a b : fraction, 0 < a.denominator → 0 < b.denominator →
      ((a.cmp b = Ordering.lt ↔ a.toRat < b.toRat) ∧
       (a.cmp b = Ordering.eq ↔ a.toRat = b.toRat) ∧
       (a.cmp b = Ordering.gt ↔ b.toRat < a.toRat))) ∧
    (∀ a b : fraction, 0 < a.denominator → Int.gcd a.numerator a.denominator = 1 →
      0 < b.denominator → Int.gcd b.numerator b.denominator = 1 →
      (a = b ↔ a.toRat = b.toRat)) := by
  refine ⟨fun a b => rfl, fun a b => by cases a; cases b; simp, ?_, ?_⟩
  · intro a b ha hb
    refine ⟨?_, ?_, ?_⟩
    · rw [fraction.cmp, icmp_lt_iff]
      exact (toRat_lt_iff a b ha hb).symm
    · rw [fraction.cmp, icmp_eq_iff]
      exact (toRat_eq_iff a b ha hb).symm
    · rw [fraction.cmp, icmp_gt_iff]
      exact (toRat_lt_iff b a hb ha).symm
  · intro a b hda hga hdb hgb
    constructor
    · intro h; rw [h]
    · intro h
      exact canonical_inj a b hda hga hdb hgb ((toRat_eq_iff a b hda hdb).mp h)

/-- Witness for C5 on the canonical fractions `1/2` and `2/4 = 1/2`:
the comparison and value-equality conjuncts at concrete inputs. -/
theorem C5_comparison_witness :
    (((fraction.set 1 2).cmp (fraction.set 2 4) = Ordering.lt ↔
        (fraction.set 1 2).toRat < (fraction.set 2 4).toRat) ∧
     ((fraction.set 1 2).cmp (fraction.set 2 4) = Ordering.eq ↔
        (fraction.set 1 2).toRat = (fraction.set 2 4).toRat) ∧
     ((fraction.set 1 2).cmp (fraction.set 2 4) = Ordering.gt ↔
        (fraction.set 2 4).toRat < (fraction.set 1 2).toRat)) ∧
    (fraction.set 1 2 = fraction.set 2 4 ↔
      (fraction.set 1 2).toRat = (fraction.set 2 4).toRat) :=
  ⟨C5_comparison.2.2.1 (fraction.set 1 2) (fraction.set 2 4) (by decide) (by decide),
   C5_comparison.2.2.2 (fraction.set 1 2) (fraction.set 2 4)
     (by decide) (by decide) (by decide) (by decide)⟩

/-- C6: modulo of two fractions returns the `f_inf` sentinel when the
divisor has numerator 0 or denominator 0 or the value itself has
denominator 0; otherwise it subtracts the toward-zero-truncated quotient
times the divisor; and `3/2 mod 1/1 = 1/2`. -/
theorem C6_modulo :
    (∀ v w : fraction, (w.numerator = 0 ∨ w.denominator = 0 ∨ v.denominator = 0) →
      v.mod w = f_inf) ∧
    (∀ v w : fraction, ¬(w.numerator = 0 ∨ w.denominator = 0 ∨ v.denominator = 0) →
      v.mod w = v.sub (w.mulInt (truncInt (v.div w)))) ∧
    (fraction.set 3 2).mod (fraction.set 1 1) = fraction.set 1 2 := by
  refine ⟨fun v w h => ?_, fun v w h => ?_, by decide⟩
  · rw [fraction.mod, if_pos h]
  · rw [fraction.mod, if_neg h]

/-- Witness for C6: the sentinel branch at divisor `f_0` and the general
branch at `3/2 mod 1/1`. -/
theorem C6_modulo_witness :
    f_1.mod f_0 = f_inf ∧
    (fraction.set 3 2).mod (fraction.set 1 1) =
      (fraction.set 3 2).sub
        ((fraction.set 1 1).mulInt
          (truncInt ((fraction.set 3 2).div (fraction.set 1 1)))) :=
  ⟨C6_modulo.1 f_1 f_0 (by decide),
   C6_modulo.2.1 (fraction.set 3 2) (fraction.set 1 1) (by decide)⟩

/-- C7: under the guard `(exp < 0 and numerator = 0) or (exp ≥ 0 and
denominator = 0)`, `pow` returns the operand unchanged and `pow_c` likewise
degrades to `(f_inf, f_0)`; both without invoking the floating-point power
or the approximator (the oracles are arbitrary). -/
theorem C7_pow_guard :
    ∀ (powApprox : fraction → ℚ → fraction)
      (powApproxC : fraction → ℚ → fraction × fraction) (r : fraction) (e : ℚ),
      (e < 0 ∧ r.numerator = 0) ∨ (0 ≤ e ∧ r.denominator = 0) →
      r.pow powApprox e = r ∧ r.pow_c powApproxC e = (f_inf, f_0) := by
  intro pa pc r e h
  exact ⟨by rw [fraction.pow, if_pos h], by rw [fraction.pow_c, if_pos h]⟩

/-- Witness for C7: zero raised to the exponent `-1` under arbitrary
constant oracles. -/
theorem C7_pow_guard_witness :
    f_0.pow (fun _ _ => f_1) (-1) = f_0 ∧
    f_0.pow_c (fun _ _ => (f_1, f_1)) (-1) = (f_inf, f_0) :=
  C7_pow_guard (fun _ _ => f_1) (fun _ _ => (f_1, f_1)) f_0 (-1)
    (Or.inl ⟨by norm_num, by decide⟩)

/-- C9: on a canonical fraction (positive denominator, coprime pair) with
nonzero numerator, taking the reciprocal twice is the identity, and the
reciprocal of the infinity sentinel `1/0` is the canonical zero `0/1`. -/
theorem C9_reciprocal :
    (∀ r : fraction, 0 < r.denominator → Int.gcd r.numerator r.denominator = 1 →
      r.numerator ≠ 0 → r.inv.inv = r) ∧
    f_inf.inv = f_0 := by
  constructor
  · intro r hd hg hn
    have hg' : Int.gcd r.denominator r.numerator = 1 := by rw [Int.gcd_comm]; exact hg
    have h1 : r.inv =
        ⟨if r.numerator < 0 then -r.denominator else r.denominator,
          ((r.numerator.natAbs : Nat) : Int)⟩ :=
      set_coprime r.denominator r.numerator hg'
    rw [h1]
    by_cases hneg : r.numerator < 0
    · rw [if_pos hneg]
      have h2 : (fraction.mk (-r.denominator) ((r.numerator.natAbs : Nat) : Int)).inv =
          fraction.set ((r.numerator.natAbs : Nat) : Int) (-r.denominator) := rfl
      have hgcd2 : Int.gcd ((r.numerator.natAbs : Nat) : Int) (-r.denominator) = 1 := by
        rw [Int.gcd_neg]
        simpa [Int.gcd, Int.natAbs_abs] using hg
      rw [h2, set_coprime _ _ hgcd2, if_pos (show -r.denominator < 0 by omega)]
      have e1 : -((r.numerator.natAbs : Nat) : Int) = r.numerator := by
        rw [Int.ofNat_natAbs_of_nonpos hneg.le]; ring
      have e2 : (((-r.denominator).natAbs : Nat) : Int) = r.denominator := by
        rw [Int.natAbs_neg, Int.natAbs_of_nonneg hd.le]
      rw [e1, e2]
    · rw [if_neg hneg]
      have h2 : (fraction.mk r.denominator ((r.numerator.natAbs : Nat) : Int)).inv =
          fraction.set ((r.numerator.natAbs : Nat) : Int) r.denominator := rfl
      have hgcd2 : Int.gcd ((r.numerator.natAbs : Nat) : Int) r.denominator = 1 := by
        simpa [Int.gcd, Int.natAbs_abs] using hg
      rw [h2, set_coprime _ _ hgcd2, if_neg (show ¬r.denominator < 0 by omega)]
      have e1 : ((r.numerator.natAbs : Nat) : Int) = r.numerator :=
        Int.natAbs_of_nonneg (by omega)
      have e2 : ((r.denominator.natAbs : Nat) : Int) = r.denominator :=
        Int.natAbs_of_nonneg hd.le
      rw [e1, e2]
  · decide

/-- Witness for C9: the double reciprocal of the canonical `2/3`. -/
theorem C9_reciprocal_witness : (fraction.set 2 3).inv.inv = fraction.set 2 3 :=
  C9_reciprocal.1 (fraction.set 2 3) (by decide) (by decide) (by decide)

/-- C10: every double-operand arithmetic operator (add, subtract, multiply,
divide, modulo) returns an infinite fraction (denominator 0) unchanged,
never calling the double-to-fraction approximator (the oracle is
arbitrary). -/
theorem C10_double_ops_guard :
    ∀ (approx : ℚ → fraction) (f : fraction) (x : ℚ), f.denominator = 0 →
      f.addD approx x = f ∧ f.subD approx x = f ∧ f.mulD approx x = f ∧
      f.divD approx x = f ∧ f.modD approx x = f := by
  intro approx f x h
  refine ⟨?_, ?_, ?_, ?_, ?_⟩ <;>
    simp [fraction.addD, fraction.subD, fraction.mulD, fraction.divD,
      fraction.modD, h]

/-- Witness for C10: the infinity sentinel against the double operand 2
under a constant oracle. -/
theorem C10_double_ops_guard_witness :
    f_inf.addD (fun _ => f_0) 2 = f_inf ∧ f_inf.subD (fun _ => f_0) 2 = f_inf ∧
    f_inf.mulD (fun _ => f_0) 2 = f_inf ∧ f_inf.divD (fun _ => f_0) 2 = f_inf ∧
    f_inf.modD (fun _ => f_0) 2 = f_inf :=
  C10_double_ops_guard (fun _ => f_0) f_inf 2 (by decide)

-- ------------------------------------------------------------------
-- Claim theorems C3 (Stern-Brocot) and C4 (continued-fraction evaluation)
-- ------------------------------------------------------------------

attribute [local semireducible] Rat.sub in
/-- C3: the Stern-Brocot search starts from `low = floor(x)`,
`high = ceil(x)`, repeatedly forms the mediant, replaces `high` by the
mediant when it overshoots by more than the tolerance and `low` when it
undershoots by more than the tolerance, and returns the first mediant within
tolerance; on the input `3.141592654` with the default tolerance `10^-6` it
yields `355/113`. -/
theorem C3_stern_brocot :
    (∀ (x tol : ℚ) (fuel : Nat) (low high : fraction),
      (mediant low high).toRat - x > tol →
      sbLoop x tol (fuel + 1) low high = sbLoop x tol fuel low (mediant low high)) ∧
    (∀ (x tol : ℚ) (fuel : Nat) (low high : fraction),
      ¬((mediant low high).toRat - x > tol) → (mediant low high).toRat - x < -tol →
      sbLoop x tol (fuel + 1) low high = sbLoop x tol fuel (mediant low high) high) ∧
    (∀ (x tol : ℚ) (fuel : Nat) (low high : fraction),
      ¬((mediant low high).toRat - x > tol) → ¬((mediant low high).toRat - x < -tol) →
      sbLoop x tol (fuel + 1) low high = some (mediant low high)) ∧
    (∀ (fuel : Nat) (x : ℚ), to_fraction_using_stern_brocot_with_mediants fuel x =
      sbLoop x error fuel (fraction.ofInt (Int.floor x)) (fraction.ofInt (Int.ceil x))) ∧
    to_fraction_using_stern_brocot_with_mediants 64 (Rat.divInt 3141592654 1000000000) =
      some (fraction.set 355 113) := by
  refine ⟨?_, ?_, ?_, fun fuel x => rfl, by decide⟩
  · intro x tol fuel low high h
    show (if (mediant low high).toRat - x > tol then sbLoop x tol fuel low (mediant low high)
      else if (mediant low high).toRat - x < -tol then sbLoop x tol fuel (mediant low high) high
      else some (mediant low high)) = sbLoop x tol fuel low (mediant low high)
    rw [if_pos h]
  · intro x tol fuel low high h1 h2
    show (if (mediant low high).toRat - x > tol then sbLoop x tol fuel low (mediant low high)
      else if (mediant low high).toRat - x < -tol then sbLoop x tol fuel (mediant low high) high
      else some (mediant low high)) = sbLoop x tol fuel (mediant low high) high
    rw [if_neg h1, if_pos h2]
  · intro x tol fuel low high h1 h2
    show (if (mediant low high).toRat - x > tol then sbLoop x tol fuel low (mediant low high)
      else if (mediant low high).toRat - x < -tol then sbLoop x tol fuel (mediant low high) high
      else some (mediant low high)) = some (mediant low high)
    rw [if_neg h1, if_neg h2]

attribute [local semireducible] Rat.sub in
/-- Witness for C3: one concrete run of each branch of the loop body. -/
theorem C3_stern_brocot_witness :
    sbLoop (Rat.divInt 0 1) error 1 (fraction.ofInt 0) (fraction.ofInt 1) =
      sbLoop (Rat.divInt 0 1) error 0 (fraction.ofInt 0)
        (mediant (fraction.ofInt 0) (fraction.ofInt 1)) ∧
    sbLoop (Rat.divInt 2 1) error 1 (fraction.ofInt 1) (fraction.ofInt 2) =
      sbLoop (Rat.divInt 2 1) error 0 (mediant (fraction.ofInt 1) (fraction.ofInt 2))
        (fraction.ofInt 2) ∧
    sbLoop (Rat.divInt 3 2) error 1 (fraction.ofInt 1) (fraction.ofInt 2) =
      some (mediant (fraction.ofInt 1) (fraction.ofInt 2)) :=
  ⟨C3_stern_brocot.1 (Rat.divInt 0 1) error 0 (fraction.ofInt 0) (fraction.ofInt 1)
     (by decide),
   C3_stern_brocot.2.1 (Rat.divInt 2 1) error 0 (fraction.ofInt 1) (fraction.ofInt 2)
     (by decide) (by decide),
   C3_stern_brocot.2.2.1 (Rat.divInt 3 2) error 0 (fraction.ofInt 1) (fraction.ofInt 2)
     (by decide) (by decide)⟩

/-- C4 (amended): `to_fraction` always skips the final entry of the
coefficient sequence (`std::next(from.rbegin())`) and folds the remaining
entries from last to first starting from a zero accumulator, replacing a
zero accumulator by the coefficient directly and otherwise taking
`invert(accumulator) + coefficient`; when the sequence ends in a padding
zero - as the fixed-length arrays produced by `to_continued_fraction` do -
this coincides with the claimed fold that starts from the last coefficient
as an integer-valued fraction. -/
theorem C4_continued_fraction_eval (l : List Int) :
    to_fraction (l ++ [0]) = to_fraction_claimed (l ++ [0]) := by
  simp [to_fraction, to_fraction_claimed, List.reverse_append, f_0, fraction.ofInt]

/-- Counterexample to C4 as stated: on the two-entry sequence `[2, 3]` the
source fold returns `2` (the final entry `3` is skipped by
`std::next(from.rbegin())`), while the fold described by the claim - the
accumulator starting as the last coefficient `3` - returns `7/3`. -/
theorem C4_counterexample : to_fraction [2, 3] ≠ to_fraction_claimed [2, 3] := by
  decide

-- ------------------------------------------------------------------
-- Helper lemmas for root factoring, then claim theorem C8
-- ------------------------------------------------------------------

lemma int_gcd_natCast_right (v : Int) (m : Nat) :
    Int.gcd v ((m : Nat) : Int) = Nat.gcd v.natAbs m := by
  simp [Int.gcd]

lemma set_int (i : Int) : fraction.set i 1 = ⟨i, 1⟩ := by
  rw [set_coprime i 1 (by simp [Int.gcd])]
  norm_num

lemma set_den_one_iff (v : Int) (m : Nat) (hm : 0 < m) :
    (fraction.set v ((m : Nat) : Int)).denominator = 1 ↔ ((m : Nat) : Int) ∣ v := by
  have hden : (fraction.set v ((m : Nat) : Int)).denominator
      = ((m / Int.gcd v ((m : Nat) : Int) : Nat) : Int) := by
    simp only [fraction.set, tdiv_natCast, Int.natAbs_ofNat]
  have hgd : Int.gcd v ((m : Nat) : Int) ∣ m := by
    rw [int_gcd_natCast_right]
    exact Nat.gcd_dvd_right _ _
  rw [hden]
  constructor
  · intro h
    have h1 : m / Int.gcd v ((m : Nat) : Int) = 1 := by exact_mod_cast h
    have hgcd_eq : Int.gcd v ((m : Nat) : Int) = m := by
      have h2 : Int.gcd v ((m : Nat) : Int) * (m / Int.gcd v ((m : Nat) : Int)) = m :=
        Nat.mul_div_cancel' hgd
      rw [h1, mul_one] at h2
      exact h2
    have hmv : m ∣ v.natAbs := by
      have h3 := Nat.gcd_dvd_left v.natAbs m
      rwa [← int_gcd_natCast_right, hgcd_eq] at h3
    rw [← Int.natAbs_dvd_natAbs, Int.natAbs_ofNat]
    exact hmv
  · intro h
    have hmv : m ∣ v.natAbs := by
      have := Int.natAbs_dvd_natAbs.mpr h
      simpa using this
    have hgcd_eq : Int.gcd v ((m : Nat) : Int) = m := by
      rw [int_gcd_natCast_right]
      exact Nat.gcd_eq_right hmv
    rw [hgcd_eq, Nat.div_self hm]
    norm_num

lemma set_den_one_mul (v x : Int) (h : (fraction.set v x).denominator = 1) :
    v = x * (fraction.set v x).numerator := by
  have hc := set_cross v x
  rw [h, mul_one] at hc
  linear_combination -hc

lemma floorRoot_is_greatest (n r k : Nat) (h1 : floorRoot n r < k) (h2 : k ≤ n) :
    ¬ (k ^ r ≤ n) := by
  unfold floorRoot at h1
  exact @Nat.findGreatest_is_greatest k (fun j => j ^ r ≤ n) _ n h1 h2

lemma srLoop_spec (i : Int) (r : Nat) :
    ∀ (f : Nat) (rem : fraction), 1 ≤ f →
      ∃ m : Nat, 1 ≤ m ∧ m ≤ f ∧
        (fraction.set i ((m : Int) ^ r)).denominator = 1 ∧
        srLoop i r rem f = ((m : Int), fraction.set i ((m : Int) ^ r)) ∧
        ∀ k : Nat, m < k → k ≤ f → (fraction.set i ((k : Int) ^ r)).denominator ≠ 1 := by
  intro f
  induction f with
  | zero => intro rem h; omega
  | succ f ih =>
    intro rem _
    have hstep : srLoop i r rem (f + 1) =
        if (fraction.set i (((f + 1 : Nat) : Int) ^ r)).denominator = 1
        then (((f + 1 : Nat) : Int), fraction.set i (((f + 1 : Nat) : Int) ^ r))
        else srLoop i r (fraction.set i (((f + 1 : Nat) : Int) ^ r)) f := rfl
    by_cases hP : (fraction.set i (((f + 1 : Nat) : Int) ^ r)).denominator = 1
    · refine ⟨f + 1, by omega, le_refl _, hP, ?_, ?_⟩
      · rw [hstep, if_pos hP]
      · intro k hk1 hk2; omega
    · rcases Nat.eq_zero_or_pos f with hf0 | hfpos
      · exfalso
        apply hP
        subst hf0
        have h1 : (((0 + 1 : Nat) : Int)) ^ r = 1 := by norm_num
        rw [h1, set_int]
      · obtain ⟨m, hm1, hm2, hmP, hmeq, hmmax⟩ :=
          ih (fraction.set i (((f + 1 : Nat) : Int) ^ r)) hfpos
        refine ⟨m, hm1, by omega, hmP, ?_, ?_⟩
        · rw [hstep, if_neg hP]
          exact hmeq
        · intro k hk1 hk2
          by_cases hkf : k ≤ f
          · exact hmmax k hk1 hkf
          · have hke : k = f + 1 := by omega
            rw [hke]
            exact hP

lemma simplify_root_spec (v : Int) (r : Nat) (hr : 1 ≤ r) (hv : v ≠ 0) :
    ∃ m : Nat, 1 ≤ m ∧
      simplify_root v r = ((m : Int), fraction.set v ((m : Int) ^ r)) ∧
      (fraction.set v ((m : Int) ^ r)).denominator = 1 ∧
      ∀ k : Nat, m < k → (fraction.set v ((k : Int) ^ r)).denominator ≠ 1 := by
  have hfuel : 1 ≤ floorRoot v.natAbs r := by
    apply Nat.le_findGreatest (Int.natAbs_pos.mpr hv)
    simpa using Nat.one_le_iff_ne_zero.mpr (Int.natAbs_pos.mpr hv).ne'
  obtain ⟨m, hm1, hm2, hmP, hmeq, hmmax⟩ :=
    srLoop_spec v r (floorRoot v.natAbs r) (fraction.ofInt v) hfuel
  refine ⟨m, hm1, ?_, hmP, ?_⟩
  · have hm0 : ((m : Nat) : Int) ≠ 0 := by
      exact_mod_cast (by omega : m ≠ 0)
    simp only [simplify_root]
    rw [hmeq]
    simp [hm0]
  · intro k hk
    by_cases hkf : k ≤ floorRoot v.natAbs r
    · exact hmmax k hk hkf
    · intro hden
      have hkpos : 0 < k := by omega
      have hcast : ((k : Nat) : Int) ^ r = (((k ^ r : Nat)) : Int) := by push_cast; ring
      rw [hcast] at hden
      have hdvd : (((k ^ r : Nat)) : Int) ∣ v :=
        (set_den_one_iff v (k ^ r) (pow_pos hkpos r)).mp hden
      have hle : k ^ r ≤ v.natAbs := by
        have hnat : k ^ r ∣ v.natAbs := by
          have h4 := Int.natAbs_dvd_natAbs.mpr hdvd
          rwa [Int.natAbs_ofNat] at h4
        exact Nat.le_of_dvd (Int.natAbs_pos.mpr hv) hnat
      have hnotle : ¬ (k ^ r ≤ v.natAbs) := by
        by_cases hkn : k ≤ v.natAbs
        · exact floorRoot_is_greatest v.natAbs r k (by omega) hkn
        · intro hc
          have hk_le : k ≤ k ^ r := Nat.le_self_pow (by omega) k
          omega
      exact hnotle hle

/-- C8: for an integer `v` and root degree `r ≥ 2`, `simplify_root` returns
a factor at least 1 with `v / factor^r` an exact integer (the canonicalized
`fraction(v, factor^r)` has denominator 1), `v = factor^r` times the
returned remainder's numerator, and the factor is the largest positive
integer with that property when `v ≠ 0`; applied to numerator and
denominator, `fraction(56,45).simplify_rt(2) = (2/3, 14/5)`. -/
theorem C8_root_factoring :
    (∀ (v : Int) (r : Nat), 2 ≤ r →
      1 ≤ (simplify_root v r).1 ∧
      (simplify_root v r).2 = fraction.set v ((simplify_root v r).1 ^ r) ∧
      ((simplify_root v r).2).denominator = 1 ∧
      v = (simplify_root v r).1 ^ r * ((simplify_root v r).2).numerator ∧
      (v ≠ 0 → ∀ k : Nat, (simplify_root v r).1 < (k : Int) →
        (fraction.set v ((k : Int) ^ r)).denominator ≠ 1)) ∧
    (fraction.set 56 45).simplify_rt 2 = (fraction.set 2 3, fraction.set 14 5) := by
  constructor
  · intro v r hr
    by_cases hv : v = 0
    · subst hv
      have h0 : simplify_root 0 r = (1, fraction.ofInt 0) := rfl
      rw [h0]
      have hpow : ((1 : Int)) ^ r = 1 := one_pow r
      refine ⟨le_refl _, ?_, ?_, ?_, fun hv0 => absurd rfl hv0⟩
      · show fraction.ofInt 0 = fraction.set 0 ((1 : Int) ^ r)
        rw [hpow]; rfl
      · show (fraction.ofInt 0).denominator = 1
        decide
      · show (0 : Int) = (1 : Int) ^ r * (fraction.ofInt 0).numerator
        rw [hpow]
        decide
    · obtain ⟨m, hm1, hmeq, hmP, hmmax⟩ := simplify_root_spec v r (by omega) hv
      rw [hmeq]
      refine ⟨?_, rfl, hmP, set_den_one_mul v _ hmP, ?_⟩
      · show (1 : Int) ≤ (m : Int)
        exact_mod_cast hm1
      · intro _ k hk
        have hk' : (m : Int) < (k : Int) := hk
        exact hmmax k (by exact_mod_cast hk')
  · decide

/-- Witness for C8: the factoring identity for `v = 56`, `r = 2`
(`56 = 2^2 * 14`) and maximality at the concrete non-factor `3`. -/
theorem C8_root_factoring_witness :
    (56 : Int) = (simplify_root 56 2).1 ^ 2 * ((simplify_root 56 2).2).numerator ∧
    (fraction.set 56 ((3 : Int) ^ 2)).denominator ≠ 1 :=
  ⟨(C8_root_factoring.1 56 2 (by norm_num)).2.2.2.1,
   (C8_root_factoring.1 56 2 (by norm_num)).2.2.2.2 (by decide) 3 (by decide)⟩

end mth
